import Mathlib

/-!
Verification of the voxel-engine core of the `minecrab` repository: a shallow
embedding of `src/world/chunk.rs` (face culling, greedy quad merging,
fullness tracking, persistence) and of `WorldState::update_aim` from
`src/state/world_state.rs`, with theorems settling the specification's claims
about them.

The block, face-flag and quad data carriers live in source files that are not
part of the provided sources (`block.rs`, `face_flags.rs`, `quad.rs`); they are
modelled from the specification, as marked on each such definition.  All
algorithms are transcribed from `chunk.rs` / `world_state.rs` directly.
-/

set_option maxHeartbeats 2000000
set_option linter.unusedVariables false

namespace Minecrab

/-- Modelled from the spec: the block-kind enumeration (`block.rs` is not among
the provided sources).  The kinds named by the spec and used by `chunk.rs`. -/
inductive BlockType where
  | bedrock
  | cobblestone
  | dirt
  | grass
  | stone
  | water
deriving DecidableEq, Repr

/-- Modelled from the spec: water is transparent, all other kinds are not. -/
def BlockType.is_transparent : BlockType → Bool
  | .water => true
  | _ => false

/-- A block carries only its kind. -/
structure Block where
  block_type : BlockType
deriving DecidableEq, Repr

/-- Modelled from the spec: one of the six cube faces (`face_flags.rs` is not
among the provided sources). -/
inductive Face where
  | left
  | right
  | bottom
  | top
  | back
  | front
deriving DecidableEq, Repr, Fintype

/-- Modelled from the spec: the 6-bit face-visibility mask, one bit per cube
face, represented by its bit-membership function. -/
abbrev FaceFlags := Face → Bool

def FACE_NONE : FaceFlags := fun _ => false

/-- Bitwise OR of two face masks (`|=` accumulation in the source). -/
def faceOr (a b : FaceFlags) : FaceFlags := fun f => a f || b f

/-- Mask inclusion: every face bit of `a` is also set in `b`. -/
def faceSub (a b : FaceFlags) : Prop := ∀ f, a f = true → b f = true

def CHUNK_SIZE : Nat := 32

def CHUNK_ISIZE : Int := 32

/-- Local (within-chunk) coordinates, `Vector3<usize>` in the source. -/
abbrev V3n := Nat × Nat × Nat

/-- Global block / chunk coordinates, `Point3<isize>` (or `Vector3<i32>` for
normals) in the source. -/
abbrev V3i := Int × Int × Int

/-- `Chunk`: the 32×32×32 grid of optional blocks indexed `[y][z][x]`
(modelled as a total function that the algorithms consult only at indices
below `CHUNK_SIZE`) plus the derived fullness flag.  The GPU geometry-buffer
field of the source is outside this model. -/
structure Chunk where
  blocks : Nat → Nat → Nat → Option Block
  full : Bool

/-- `Chunk::default()`: all cells empty, not full. -/
def Chunk.empty : Chunk := { blocks := fun _ _ _ => none, full := false }

/-- The transparency of an optional cell.  The source calls
`.unwrap().block_type.is_transparent()` only on cells already known to be
occupied; the `none` branch is unreachable there and defaults to `false`. -/
def optTransparent (o : Option Block) : Bool :=
  match o with
  | some b => b.block_type.is_transparent
  | none => false

/-- Direct transcription of `Chunk::check_visible_faces`: the bitmask built by
the source's six conditional `|=` statements has each face bit equal to its
guard, which is what this function returns face-by-face. -/
def Chunk.check_visible_faces (c : Chunk) (x y z : Nat) : FaceFlags :=
  let transparent := optTransparent (c.blocks y z x)
  fun face =>
    match face with
    | .left =>
        x == 0 || (c.blocks y z (x - 1)).isNone
          || transparent != optTransparent (c.blocks y z (x - 1))
    | .right =>
        x == CHUNK_SIZE - 1 || (c.blocks y z (x + 1)).isNone
          || transparent != optTransparent (c.blocks y z (x + 1))
    | .bottom =>
        y == 0 || (c.blocks (y - 1) z x).isNone
          || transparent != optTransparent (c.blocks (y - 1) z x)
    | .top =>
        y == CHUNK_SIZE - 1 || (c.blocks (y + 1) z x).isNone
          || transparent != optTransparent (c.blocks (y + 1) z x)
    | .back =>
        z == 0 || (c.blocks y (z - 1) x).isNone
          || transparent != optTransparent (c.blocks y (z - 1) x)
    | .front =>
        z == CHUNK_SIZE - 1 || (c.blocks y (z + 1) x).isNone
          || transparent != optTransparent (c.blocks y (z + 1) x)

/-- Direct embedding of `Chunk::update_fullness`: scan every cell, `full` is
true iff none is empty (the source's early `return` on the first empty cell is
the short-circuit of the all-scan). -/
def Chunk.update_fullness (c : Chunk) : Chunk :=
  { c with
    full :=
      (List.range CHUNK_SIZE).all fun y =>
        (List.range CHUNK_SIZE).all fun z =>
          (List.range CHUNK_SIZE).all fun x => (c.blocks y z x).isSome }

abbrev CoordinateXZ := Nat × Nat

abbrev BlockFace := BlockType × FaceFlags

/-- The lookup function of the `FxHashMap` built by `Chunk::cull_layer`: a key
`(x, z)` is bound exactly when the loop inserted it, i.e. when it is in
bounds, the cell is occupied, and its visible-face mask is non-empty. -/
def Chunk.cull_layer_map (c : Chunk) (y : Nat) : CoordinateXZ → Option BlockFace :=
  fun p =>
    if p.1 < CHUNK_SIZE ∧ p.2 < CHUNK_SIZE then
      match c.blocks y p.2 p.1 with
      | some block =>
          if c.check_visible_faces p.1 y p.2 = FACE_NONE then none
          else some (block.block_type, c.check_visible_faces p.1 y p.2)
      | none => none
    else none

/-- The queue built by `Chunk::cull_layer`: culled cells pushed in z-outer,
x-inner iteration order. -/
def Chunk.cull_layer_queue (c : Chunk) (y : Nat) : List CoordinateXZ :=
  (List.range CHUNK_SIZE).flatMap fun z =>
    (List.range CHUNK_SIZE).filterMap fun x =>
      match c.blocks y z x with
      | some _ =>
          if c.check_visible_faces x y z = FACE_NONE then none else some (x, z)
      | none => none

/-- Modelled from the spec: the merged rectangular surface patch (`quad.rs` is
not among the provided sources): global anchor, extents along x and z, the
highlighted-face normal (zero unless the quad is the highlighted cell), face
mask, and block kind. -/
structure Quad where
  position : V3i
  dx : Int
  dz : Int
  highlighted_normal : V3i
  visible_faces : FaceFlags
  block_type : Option BlockType
deriving DecidableEq

/-- `Quad::new(position, dx, dz)` with the modelled defaults. -/
def Quad.new (position : V3i) (dx dz : Int) : Quad :=
  { position := position
    dx := dx
    dz := dz
    highlighted_normal := (0, 0, 0)
    visible_faces := FACE_NONE
    block_type := none }

/-- Direct embedding of the X-extension loop of `Chunk::layer_to_quads`, from
loop counter `x_` with the accumulated face mask and visited set; returns the
final `(xmax, quad_faces, visited)`.  As in the source, the face mask of the
inspected cell is OR-ed in before the block-kind comparison, and `xmax` has
already been advanced when a break happens.  The `for x_ in x..CHUNK_SIZE`
loop runs at most `CHUNK_SIZE - x_` further iterations; that count is the
structural `fuel` argument (exactly `CHUNK_SIZE - x_` at every call), which
never runs out before the loop guard fails. -/
def extendX (culled : CoordinateXZ → Option BlockFace) (hl : Option V3n)
    (y z : Nat) (block_type : BlockType) :
    Nat → Nat → FaceFlags → List CoordinateXZ → Nat × FaceFlags × List CoordinateXZ
  | 0, x_, quad_faces, visited => (x_, quad_faces, visited)
  | fuel + 1, x_, quad_faces, visited =>
    if x_ < CHUNK_SIZE then
      if (x_ + 1, z) ∈ visited ∨ hl = some (x_ + 1, y, z) then
        (x_ + 1, quad_faces, visited)
      else
        match culled (x_ + 1, z) with
        | some (bt, vf) =>
            if block_type ≠ bt then (x_ + 1, faceOr quad_faces vf, visited)
            else
              extendX culled hl y z block_type fuel (x_ + 1) (faceOr quad_faces vf)
                ((x_ + 1, z) :: visited)
        | none => (x_ + 1, quad_faces, visited)
    else (x_, quad_faces, visited)

/-- Direct embedding of the inner row scan of the Z-extension: walks the cells
of the candidate row, OR-ing the face mask of every inspected cell (also the
one that fails), and reports whether the whole row is mergeable. -/
def checkRow (culled : CoordinateXZ → Option BlockFace) (hl : Option V3n)
    (y zmax : Nat) (block_type : BlockType) (visited : List CoordinateXZ) :
    List Nat → FaceFlags → Bool × FaceFlags
  | [], quad_faces => (true, quad_faces)
  | x_ :: rest, quad_faces =>
    if (x_, zmax) ∈ visited ∨ hl = some (x_, y, zmax) then (false, quad_faces)
    else
      match culled (x_, zmax) with
      | some (bt, vf) =>
          if block_type ≠ bt then (false, faceOr quad_faces vf)
          else checkRow culled hl y zmax block_type visited rest (faceOr quad_faces vf)
      | none => (false, quad_faces)

/-- Direct embedding of the Z-extension loop of `Chunk::layer_to_quads`:
row-by-row, all-or-nothing; on success the whole row is marked visited, and
the labelled break leaves `zmax` already advanced.  Fuel as in `extendX`,
always `CHUNK_SIZE - z_`. -/
def extendZ (culled : CoordinateXZ → Option BlockFace) (hl : Option V3n)
    (y x xmax : Nat) (block_type : BlockType) :
    Nat → Nat → FaceFlags → List CoordinateXZ → Nat × FaceFlags × List CoordinateXZ
  | 0, z_, quad_faces, visited => (z_, quad_faces, visited)
  | fuel + 1, z_, quad_faces, visited =>
    if z_ < CHUNK_SIZE then
      match checkRow culled hl y (z_ + 1) block_type visited (List.range' x (xmax - x))
          quad_faces with
      | (ok, qf2) =>
        if ok then
          extendZ culled hl y x xmax block_type fuel (z_ + 1) qf2
            (((List.range' x (xmax - x)).map fun x_ => (x_, z_ + 1)) ++ visited)
        else (z_ + 1, qf2, visited)
    else (z_, quad_faces, visited)

/-- Direct embedding of the main merge loop of `Chunk::layer_to_quads` (the
`while let Some((x, z)) = queue.pop_front()` loop), also returning the final
visited set.  Quads are produced in pop order. -/
def layerGo (culled : CoordinateXZ → Option BlockFace)
    (highlighted : Option (V3n × V3i)) (y : Nat) (offset : V3i) :
    List CoordinateXZ → List CoordinateXZ → List Quad × List CoordinateXZ
  | [], visited => ([], visited)
  | (x, z) :: rest, visited =>
    if (x, z) ∈ visited then layerGo culled highlighted y offset rest visited
    else
      let visited1 := (x, z) :: visited
      let position : V3i :=
        (offset.1 + (x : Int), offset.2.1 + (y : Int), offset.2.2 + (z : Int))
      match culled (x, z) with
      | none => layerGo culled highlighted y offset rest visited1
      | some (block_type, visible_faces) =>
        if highlighted.map Prod.fst = some (x, y, z) then
          let quad :=
            { Quad.new position 1 1 with
              highlighted_normal := (highlighted.map Prod.snd).getD (0, 0, 0)
              visible_faces := visible_faces
              block_type := some block_type }
          let res := layerGo culled highlighted y offset rest visited1
          (quad :: res.1, res.2)
        else if block_type = BlockType.water then
          let quad :=
            { Quad.new position 1 1 with
              visible_faces := visible_faces
              block_type := some block_type }
          let res := layerGo culled highlighted y offset rest visited1
          (quad :: res.1, res.2)
        else
          let ex := extendX culled (highlighted.map Prod.fst) y z block_type
            (CHUNK_SIZE - x) x visible_faces visited1
          let ez := extendZ culled (highlighted.map Prod.fst) y x ex.1 block_type
            (CHUNK_SIZE - z) z ex.2.1 ex.2.2
          let quad :=
            { Quad.new position ((ex.1 - x : Nat) : Int) ((ez.1 - z : Nat) : Int) with
              visible_faces := ez.2.1
              block_type := some block_type }
          let res := layerGo culled highlighted y offset rest ez.2.2
          (quad :: res.1, res.2)

/-- `Chunk::layer_to_quads`: run the merge loop over the culled queue with an
empty visited set and return the emitted quads. -/
def layer_to_quads (y : Nat) (offset : V3i)
    (culled : CoordinateXZ → Option BlockFace) (queue : List CoordinateXZ)
    (highlighted : Option (V3n × V3i)) : List Quad :=
  (layerGo culled highlighted y offset queue []).1

/-- Cull then merge one layer of a chunk, exactly as one `y` iteration of
`Chunk::update_geometry` does. -/
def Chunk.meshLayer (c : Chunk) (y : Nat) (offset : V3i)
    (highlighted : Option (V3n × V3i)) : List Quad :=
  layer_to_quads y offset (c.cull_layer_map y) (c.cull_layer_queue y) highlighted

/-- `Chunk::block_coords_to_local`. -/
def Chunk.block_coords_to_local (chunk_coords block_coords : V3i) : Option V3n :=
  let p1 := block_coords.1 - chunk_coords.1 * CHUNK_ISIZE
  let p2 := block_coords.2.1 - chunk_coords.2.1 * CHUNK_ISIZE
  let p3 := block_coords.2.2 - chunk_coords.2.2 * CHUNK_ISIZE
  if 0 ≤ p1 ∧ p1 < CHUNK_ISIZE ∧ 0 ≤ p2 ∧ p2 < CHUNK_ISIZE ∧ 0 ≤ p3 ∧ p3 < CHUNK_ISIZE
  then some (p1.toNat, p2.toNat, p3.toNat)
  else none

/-- The chunk's global offset, `chunk_coords * CHUNK_ISIZE`. -/
def chunkOffset (chunk_coords : V3i) : V3i :=
  (chunk_coords.1 * CHUNK_ISIZE, chunk_coords.2.1 * CHUNK_ISIZE,
    chunk_coords.2.2 * CHUNK_ISIZE)

/-- The quad stream of `Chunk::update_geometry`: localize the highlight, then
cull and merge every layer, concatenated in layer order (tessellation and the
GPU buffer upload are outside this model; `update_fullness` acts on the flag
only and is embedded separately). -/
def Chunk.update_geometry_quads (c : Chunk) (chunk_coords : V3i)
    (highlighted : Option (V3i × V3i)) : List Quad :=
  let hl := highlighted.bind fun pn =>
    (Chunk.block_coords_to_local chunk_coords pn.1).map fun v => (v, pn.2)
  let offset := chunkOffset chunk_coords
  (List.range CHUNK_SIZE).flatMap fun y => c.meshLayer y offset hl

/-- The cell footprint of a quad in layer-local coordinates: the quad anchored
at its global position with extents `dx`, `dz` covers local cell `p` of the
chunk at `offset`. -/
def Quad.covers (q : Quad) (offset : V3i) (p : CoordinateXZ) : Prop :=
  q.position.1 ≤ offset.1 + (p.1 : Int) ∧
    offset.1 + (p.1 : Int) < q.position.1 + q.dx ∧
    q.position.2.2 ≤ offset.2.2 + (p.2 : Int) ∧
    offset.2.2 + (p.2 : Int) < q.position.2.2 + q.dz

instance (q : Quad) (offset : V3i) (p : CoordinateXZ) : Decidable (q.covers offset p) := by
  unfold Quad.covers
  infer_instance

/-- The per-voxel face coverage reconstructed from a quad list: the OR of the
face masks of every quad covering the cell. -/
def coverageAt (quads : List Quad) (offset : V3i) (p : CoordinateXZ) : FaceFlags :=
  quads.foldr (fun q acc => if q.covers offset p then faceOr q.visible_faces acc else acc)
    FACE_NONE

/-- The unmerged cull-pass mask of a cell (empty for cells the cull pass
dropped). -/
def Chunk.cullMaskAt (c : Chunk) (y : Nat) (p : CoordinateXZ) : FaceFlags :=
  match c.cull_layer_map y p with
  | some bf => bf.2
  | none => FACE_NONE

/-! ### Persistence (`Serialize` / `ChunkVisitor` / `save` / `load`) -/

/-- Modelled from the spec: a stored record as the sequence of elements the
MessagePack layer (`rmp_serde`, an external library) hands to the visitor;
`malformed` stands for an element that does not decode as an optional block. -/
inductive MsgElem where
  | blk (b : Option Block)
  | malformed
deriving DecidableEq

def MsgElem.isBlk : MsgElem → Bool
  | .blk _ => true
  | .malformed => false

def MsgElem.getBlk : MsgElem → Option Block
  | .blk b => b
  | .malformed => none

/-- Direct embedding of the `Serialize` impl for `Chunk`: the flattened grid
as a sequence in y-outer, z-middle, x-inner order. -/
def Chunk.encode (c : Chunk) : List MsgElem :=
  (List.range CHUNK_SIZE).flatMap fun y =>
    (List.range CHUNK_SIZE).flatMap fun z =>
      (List.range CHUNK_SIZE).map fun x => MsgElem.blk (c.blocks y z x)

/-- Embedding of `ChunkVisitor::visit_seq` on a fresh default chunk: the nested
loops consume consecutive sequence elements, cell `[y][z][x]` receiving element
`(y*S + z)*S + x`; decoding fails when any element is malformed or the record
does not hold exactly `S³` elements. -/
def Chunk.decode (data : List MsgElem) : Except Unit Chunk :=
  if data.length = CHUNK_SIZE ^ 3 ∧ data.all MsgElem.isBlk then
    Except.ok
      { blocks := fun y z x =>
          match data[(y * CHUNK_SIZE + z) * CHUNK_SIZE + x]? with
          | some e => e.getBlk
          | none => none
        full := false }
  else Except.error ()

/-- The key-value store (`sled::Db`), as the map it denotes. -/
abbrev Store := String → Option (List MsgElem)

/-- The record key `format!("{}_{}_{}", x, y, z)`. -/
def chunkKey (pos : V3i) : String :=
  toString pos.1 ++ "_" ++ toString pos.2.1 ++ "_" ++ toString pos.2.2

/-- Direct embedding of `Chunk::save`: encode and insert under the coordinate
key.  Encoding this data model cannot fail; store I/O errors are external. -/
def Chunk.save (c : Chunk) (pos : V3i) (store : Store) : Store :=
  fun k => if k = chunkKey pos then some c.encode else store k

/-- Direct embedding of `Chunk::load`: if a record exists, decode it, `*self`
being replaced only on success (`?` returns early on failure, leaving the chunk
as it was); otherwise run procedural generation, which is noise-based
(external floating point) and therefore a parameter `gen` here.  Returns the
chunk after the call together with the `Result`. -/
def Chunk.load (gen : Chunk → V3i → Chunk) (c : Chunk) (pos : V3i)
    (store : Store) : Chunk × Except Unit Bool :=
  match store (chunkKey pos) with
  | some data =>
    match Chunk.decode data with
    | .ok cNew => (cNew, .ok false)
    | .error e => (c, .error e)
  | none => (gen c pos, .ok true)

/-! ### Highlight reconciliation (`WorldState::update_aim`) -/

/-- The chunk containing a highlighted cell, `h.0 / CHUNK_SIZE` componentwise. -/
def hlChunk (v : V3n) : V3n := (v.1 / CHUNK_SIZE, v.2.1 / CHUNK_SIZE, v.2.2 / CHUNK_SIZE)

/-- Direct embedding of `WorldState::update_aim`: from the previous highlight
and the new ray-cast result (the ray cast itself is external camera code), the
new highlight and the list of chunk positions passed to
`update_chunk_geometry`, in call order. -/
def update_aim (old newH : Option (V3n × V3i)) : Option (V3n × V3i) × List V3n :=
  let old_chunk := old.map fun h => hlChunk h.1
  let new_chunk := newH.map fun h => hlChunk h.1
  if old ≠ newH then
    (newH,
      (match old_chunk with
       | some oc => [oc]
       | none => []) ++
      (match new_chunk with
       | some nc => if old_chunk ≠ new_chunk then [nc] else []
       | none => []))
  else (old, [])

/-- Two quads cover no common cell. -/
def quadsDisjoint (offset : V3i) (q q2 : Quad) : Prop :=
  ∀ p : CoordinateXZ, ¬(q.covers offset p ∧ q2.covers offset p)

/-- The 1×1 quad that `layer_to_quads` emits for the highlighted cell. -/
def hlQuad (offset : V3i) (hx y hz : Nat) (n : V3i) (bf : BlockFace) : Quad :=
  { Quad.new (offset.1 + (hx : Int), offset.2.1 + (y : Int), offset.2.2 + (hz : Int))
      1 1 with
    highlighted_normal := n
    visible_faces := bf.2
    block_type := some bf.1 }

/-- The spec's face-visibility condition at a neighbour cell: the neighbour
lies outside the chunk, or is empty, or is occupied with a transparency
differing from the current cell's block `b`. -/
def faceVisibleSpec (c : Chunk) (b : Block) (outside : Prop) (ny nz nx : Nat) : Prop :=
  outside ∨ c.blocks ny nz nx = none ∨
    ∃ nb, c.blocks ny nz nx = some nb ∧
      nb.block_type.is_transparent ≠ b.block_type.is_transparent

/-! ### Concrete chunks used as test inputs -/

/-- A single stone block at local (x, y, z) = (0, 0, 0), otherwise empty. -/
def oneStoneChunk : Chunk :=
  { blocks := fun y z x =>
      if y = 0 ∧ z = 0 ∧ x = 0 then some { block_type := BlockType.stone } else none
    full := false }

/-- Two adjacent stone blocks at (0, 0, 0) and (1, 0, 0), otherwise empty. -/
def twoStoneChunk : Chunk :=
  { blocks := fun y z x =>
      if y = 0 ∧ z = 0 ∧ (x = 0 ∨ x = 1) then some { block_type := BlockType.stone }
      else none
    full := false }

/-- Two adjacent water blocks at (0, 0, 0) and (1, 0, 0), otherwise empty. -/
def twoWaterChunk : Chunk :=
  { blocks := fun y z x =>
      if y = 0 ∧ z = 0 ∧ (x = 0 ∨ x = 1) then some { block_type := BlockType.water }
      else none
    full := false }

/-- Every cell occupied by (opaque) stone. -/
def fullStoneChunk : Chunk :=
  { blocks := fun _ _ _ => some { block_type := BlockType.stone }, full := false }

/-- A store holding a corrupt record for chunk (0, 0, 0). -/
def badStore : Store :=
  fun k => if k = chunkKey (0, 0, 0) then some [MsgElem.malformed] else none

/-! ## Theorems -/

theorem visCond_iff (c : Chunk) (b : Block) (outside : Bool) (ny nz nx : Nat) :
    (outside || (c.blocks ny nz nx).isNone
        || (b.block_type.is_transparent != optTransparent (c.blocks ny nz nx))) = true ↔
      faceVisibleSpec c b (outside = true) ny nz nx := by
  cases hn : c.blocks ny nz nx with
  | none => simp [faceVisibleSpec, hn]
  | some nb =>
    simp [faceVisibleSpec, hn, optTransparent, bne_iff_ne]
    constructor
    · rintro (h | h)
      · exact Or.inl h
      · exact Or.inr (Ne.symm h)
    · rintro (h | h)
      · exact Or.inl h
      · exact Or.inr (Ne.symm h)

/-- C6: for every occupied cell of a chunk, the cull pass marks a face visible
iff the corresponding within-chunk neighbour is empty, or occupied with a
differing transparency, or lies outside the chunk (boundary faces are always
visible; neighbour chunks are never consulted). -/
theorem c6_cull_faces_iff (c : Chunk) (x y z : Nat) (b : Block)
    (hx : x < CHUNK_SIZE) (hy : y < CHUNK_SIZE) (hz : z < CHUNK_SIZE)
    (hb : c.blocks y z x = some b) :
    ((c.check_visible_faces x y z Face.left = true ↔
        faceVisibleSpec c b (x = 0) y z (x - 1)) ∧
      (c.check_visible_faces x y z Face.right = true ↔
        faceVisibleSpec c b (x = CHUNK_SIZE - 1) y z (x + 1))) ∧
    ((c.check_visible_faces x y z Face.bottom = true ↔
        faceVisibleSpec c b (y = 0) (y - 1) z x) ∧
      (c.check_visible_faces x y z Face.top = true ↔
        faceVisibleSpec c b (y = CHUNK_SIZE - 1) (y + 1) z x)) ∧
    ((c.check_visible_faces x y z Face.back = true ↔
        faceVisibleSpec c b (z = 0) y (z - 1) x) ∧
      (c.check_visible_faces x y z Face.front = true ↔
        faceVisibleSpec c b (z = CHUNK_SIZE - 1) y (z + 1) x)) := by
  have ht : optTransparent (c.blocks y z x) = b.block_type.is_transparent := by
    rw [hb]; rfl
  refine ⟨⟨?_, ?_⟩, ⟨?_, ?_⟩, ⟨?_, ?_⟩⟩ <;>
    · show (_ || _ || _) = true ↔ _
      rw [ht, visCond_iff]
      simp [beq_iff_eq]

/-- C8: after `update_fullness`, the `full` flag is true iff no cell of the
grid is empty. -/
theorem c8_fullness_iff (c : Chunk) :
    c.update_fullness.full = true ↔
      ∀ y z x : Nat, y < CHUNK_SIZE → z < CHUNK_SIZE → x < CHUNK_SIZE →
        (c.blocks y z x).isSome = true := by
  simp only [Chunk.update_fullness, List.all_eq_true, List.mem_range]
  constructor
  · intro h y z x hy hz hx
    exact h y hy z hz x hx
  · intro h y hy z hz x hx
    exact h y z x hy hz hx

theorem getElem?_flatMap_const {α β : Type} (g : α → List β) (m : Nat) :
    ∀ (l : List α) (i : Nat) (hi : i < l.length) (r : Nat),
      (∀ a ∈ l, (g a).length = m) → r < m →
      (l.flatMap g)[i * m + r]? = (g (l.get ⟨i, hi⟩))[r]? := by
  intro l
  induction l with
  | nil => intro i hi; simp at hi
  | cons a t ih =>
    intro i hi r hlen hr
    cases i with
    | zero =>
      have hga : (g a).length = m := hlen a (by simp)
      simp only [List.flatMap_cons, Nat.zero_mul, Nat.zero_add, List.getElem?_append]
      rw [if_pos (by omega)]
      rfl
    | succ n =>
      have hga : (g a).length = m := hlen a (by simp)
      have hge : ¬ ((n + 1) * m + r < (g a).length) := by
        rw [Nat.succ_mul, hga]; omega
      simp only [List.flatMap_cons, List.getElem?_append]
      rw [if_neg hge]
      have hidx : (n + 1) * m + r - (g a).length = n * m + r := by
        rw [Nat.succ_mul, hga]; omega
      rw [hidx]
      have hn : n < t.length := by simpa using Nat.lt_of_succ_lt_succ (by simpa using hi)
      have := ih n hn r (fun bb hb => hlen bb (by simp [hb])) hr
      simpa using this

theorem sum_map_const_nat (n m : Nat) : ((List.range n).map fun _ => m).sum = n * m := by
  induction n with
  | zero => simp
  | succ k ih =>
    rw [List.range_succ, List.map_append, List.sum_append, ih]
    simp [Nat.succ_mul]

theorem flatMap_length_const {α : Type} (n m : Nat) (g : Nat → List α)
    (h : ∀ i, (g i).length = m) : ((List.range n).flatMap g).length = n * m := by
  rw [List.length_flatMap]
  have hmap : List.map (List.length ∘ g) (List.range n)
      = (List.range n).map fun _ => m := by
    apply List.map_congr_left
    intro a _
    simp [Function.comp, h]
  rw [hmap, sum_map_const_nat]

theorem encode_length (c : Chunk) : c.encode.length = CHUNK_SIZE ^ 3 := by
  rw [Chunk.encode,
    flatMap_length_const CHUNK_SIZE (CHUNK_SIZE * CHUNK_SIZE) _ fun y =>
      flatMap_length_const CHUNK_SIZE CHUNK_SIZE _ fun z => by simp]
  norm_num [CHUNK_SIZE]

theorem encode_all_isBlk (c : Chunk) : c.encode.all MsgElem.isBlk = true := by
  rw [List.all_eq_true]
  intro e he
  simp only [Chunk.encode, List.mem_flatMap, List.mem_map, List.mem_range] at he
  obtain ⟨y, -, z, -, x, -, rfl⟩ := he
  rfl

theorem encode_getElem (c : Chunk) (y z x : Nat)
    (hy : y < CHUNK_SIZE) (hz : z < CHUNK_SIZE) (hx : x < CHUNK_SIZE) :
    c.encode[(y * CHUNK_SIZE + z) * CHUNK_SIZE + x]? =
      some (MsgElem.blk (c.blocks y z x)) := by
  have hidx : (y * CHUNK_SIZE + z) * CHUNK_SIZE + x
      = y * (CHUNK_SIZE * CHUNK_SIZE) + (z * CHUNK_SIZE + x) := by ring
  rw [Chunk.encode, hidx]
  have h1 : ∀ a ∈ List.range CHUNK_SIZE,
      ((List.range CHUNK_SIZE).flatMap fun z =>
        (List.range CHUNK_SIZE).map fun x => MsgElem.blk (c.blocks a z x)).length
      = CHUNK_SIZE * CHUNK_SIZE := by
    intro a _
    exact flatMap_length_const CHUNK_SIZE CHUNK_SIZE _ fun z => by simp
  have hr1 : z * CHUNK_SIZE + x < CHUNK_SIZE * CHUNK_SIZE := by
    have h32 : CHUNK_SIZE = 32 := rfl
    rw [h32] at hz hx ⊢
    omega
  rw [getElem?_flatMap_const _ (CHUNK_SIZE * CHUNK_SIZE) _ y
    (by simpa using hy) _ h1 hr1]
  have h2 : ∀ a ∈ List.range CHUNK_SIZE,
      ((List.range CHUNK_SIZE).map fun x =>
        MsgElem.blk (c.blocks ((List.range CHUNK_SIZE).get ⟨y, by simpa using hy⟩) a x)).length
      = CHUNK_SIZE := by
    intro a _; simp
  rw [getElem?_flatMap_const _ CHUNK_SIZE _ z (by simpa using hz) _ h2 hx]
  simp [List.getElem?_map, List.getElem?_range hx, List.getElem_range]

/-- C3: saving any chunk and loading the stored record into a fresh default
chunk at the same coordinate succeeds and reproduces the block grid
cell-for-cell. -/
theorem c3_save_load_roundtrip (gen : Chunk → V3i → Chunk) (c : Chunk)
    (pos : V3i) (store : Store) (y z x : Nat)
    (hy : y < CHUNK_SIZE) (hz : z < CHUNK_SIZE) (hx : x < CHUNK_SIZE) :
    (Chunk.load gen Chunk.empty pos (c.save pos store)).2 = .ok false ∧
    (Chunk.load gen Chunk.empty pos (c.save pos store)).1.blocks y z x
      = c.blocks y z x := by
  have hstore : (c.save pos store) (chunkKey pos) = some c.encode := by
    simp [Chunk.save]
  have hdec : Chunk.decode c.encode = Except.ok
      { blocks := fun y z x =>
          match c.encode[(y * CHUNK_SIZE + z) * CHUNK_SIZE + x]? with
          | some e => e.getBlk
          | none => none
        full := false } := by
    rw [Chunk.decode, if_pos ⟨encode_length c, encode_all_isBlk c⟩]
  constructor
  · simp [Chunk.load, hstore, hdec]
  · simp only [Chunk.load, hstore, hdec]
    simp [encode_getElem c y z x hy hz hx, MsgElem.getBlk]

/-- C7: when a record exists at the coordinate, a failing decode makes `load`
return the error with the chunk untouched, and a succeeding decode replaces
the entire chunk by the decoded one. -/
theorem c7_load_decode_failure (gen : Chunk → V3i → Chunk) (c : Chunk)
    (pos : V3i) (store : Store) (data : List MsgElem)
    (hget : store (chunkKey pos) = some data) :
    (Chunk.decode data = .error () → Chunk.load gen c pos store = (c, .error ())) ∧
    (∀ cNew, Chunk.decode data = .ok cNew →
      Chunk.load gen c pos store = (cNew, .ok false)) := by
  constructor
  · intro hdec
    simp [Chunk.load, hget, hdec]
  · intro cNew hdec
    simp [Chunk.load, hget, hdec]

/-- C9: after an aim update, if the highlighted global coordinate changed then
the old highlight's chunk is re-meshed (when there was one), the new
highlight's chunk is re-meshed when it differs from the old one, nothing else
is re-meshed and no chunk twice — in particular, when both highlights fall in
the same chunk, exactly that one chunk is re-meshed once; if the highlight did
not change at all, nothing is re-meshed. -/
theorem c9_update_aim_remesh (old newH : Option (V3n × V3i)) :
    (old.map Prod.fst ≠ newH.map Prod.fst →
      ((∀ oh, old = some oh → hlChunk oh.1 ∈ (update_aim old newH).2) ∧
       (∀ nh, newH = some nh → ∀ oh, old = some oh →
          hlChunk nh.1 ≠ hlChunk oh.1 → hlChunk nh.1 ∈ (update_aim old newH).2) ∧
       (∀ p, p ∈ (update_aim old newH).2 →
          (∃ oh, old = some oh ∧ p = hlChunk oh.1) ∨
          (∃ nh, newH = some nh ∧ p = hlChunk nh.1)) ∧
       (update_aim old newH).2.Nodup ∧
       (∀ oh nh, old = some oh → newH = some nh → hlChunk nh.1 = hlChunk oh.1 →
          (update_aim old newH).2 = [hlChunk oh.1]))) ∧
    (old = newH → (update_aim old newH).2 = []) := by
  constructor
  · intro hchanged
    have hne : old ≠ newH := by
      intro h; exact hchanged (by rw [h])
    rcases old with - | ⟨oh⟩ <;> rcases newH with - | ⟨nh⟩
    · exact absurd rfl hne
    · simp [update_aim]
    · simp [update_aim, hne]
    · by_cases hc : hlChunk oh.1 = hlChunk nh.1
      · simp [update_aim, hne, hc]
      · refine ⟨?_, ?_, ?_, ?_, ?_⟩ <;>
          simp [update_aim, hne, hc] <;> tauto
  · intro h
    simp [update_aim, h]

theorem faceSub_refl (a : FaceFlags) : faceSub a a := fun _ h => h

theorem faceSub_trans {a b c : FaceFlags} (h1 : faceSub a b) (h2 : faceSub b c) :
    faceSub a c := fun f hf => h2 f (h1 f hf)

theorem faceSub_or_left (a b : FaceFlags) : faceSub a (faceOr a b) := by
  intro f hf; simp [faceOr, hf]

theorem faceSub_or_right (a b : FaceFlags) : faceSub b (faceOr a b) := by
  intro f hf; simp [faceOr, hf]

theorem faceOr_cases {a b : FaceFlags} {f : Face} (h : faceOr a b f = true) :
    a f = true ∨ b f = true := by
  simpa [faceOr] using h

theorem extendX_spec (culled : CoordinateXZ → Option BlockFace) (hl : Option V3n)
    (y z : Nat) (bt : BlockType)
    (hbound : ∀ p bf, culled p = some bf → p.1 < CHUNK_SIZE ∧ p.2 < CHUNK_SIZE) :
    ∀ (fuel x_ : Nat) (qf : FaceFlags) (v : List CoordinateXZ) (xm : Nat)
      (qf2 : FaceFlags) (v2 : List CoordinateXZ),
      CHUNK_SIZE ≤ fuel + x_ →
      extendX culled hl y z bt fuel x_ qf v = (xm, qf2, v2) →
      (x_ ≤ xm ∧ (x_ < CHUNK_SIZE → x_ < xm)) ∧
      (∀ p : CoordinateXZ, p ∈ v2 ↔ p ∈ v ∨ (x_ < p.1 ∧ p.1 < xm ∧ p.2 = z)) ∧
      (∀ t, x_ < t → t < xm →
        (t, z) ∉ v ∧ hl ≠ some (t, y, z) ∧
        ∃ vf, culled (t, z) = some (bt, vf) ∧ faceSub vf qf2) ∧
      faceSub qf qf2 ∧
      (∀ f, qf2 f = true → qf f = true ∨ ∃ p bf, culled p = some bf ∧ bf.2 f = true) := by
  intro fuel
  induction fuel with
  | zero =>
    intro x_ qf v xm qf2 v2 hfuel heq
    rw [extendX] at heq
    injection heq with h1 h23
    injection h23 with h2 h3
    subst h1 h2 h3
    refine ⟨⟨Nat.le_refl _, fun hx => by omega⟩, ?_, ?_, faceSub_refl _,
      fun f hf => Or.inl hf⟩
    · intro p
      constructor
      · exact fun hp => Or.inl hp
      · rintro (hp | ⟨hh1, hh2, hh3⟩)
        · exact hp
        · omega
    · intro t ht1 ht2
      omega
  | succ fuel ih =>
    intro x_ qf v xm qf2 v2 hfuel heq
    rw [extendX] at heq
    by_cases h : x_ < CHUNK_SIZE
    · rw [if_pos h] at heq
      by_cases hcond : (x_ + 1, z) ∈ v ∨ hl = some (x_ + 1, y, z)
      · rw [if_pos hcond] at heq
        injection heq with h1 h23
        injection h23 with h2 h3
        subst h1 h2 h3
        refine ⟨⟨by omega, fun _ => by omega⟩, ?_, ?_, faceSub_refl _,
          fun f hf => Or.inl hf⟩
        · intro p
          constructor
          · exact fun hp => Or.inl hp
          · rintro (hp | ⟨hh1, hh2, hh3⟩)
            · exact hp
            · omega
        · intro t ht1 ht2
          omega
      · rw [if_neg hcond] at heq
        rcases hc : culled (x_ + 1, z) with - | ⟨bt2, vf⟩
        · rw [hc] at heq
          dsimp only at heq
          injection heq with h1 h23
          injection h23 with h2 h3
          subst h1 h2 h3
          refine ⟨⟨by omega, fun _ => by omega⟩, ?_, ?_, faceSub_refl _,
            fun f hf => Or.inl hf⟩
          · intro p
            constructor
            · exact fun hp => Or.inl hp
            · rintro (hp | ⟨hh1, hh2, hh3⟩)
              · exact hp
              · omega
          · intro t ht1 ht2
            omega
        · rw [hc] at heq
          dsimp only at heq
          by_cases hne : bt ≠ bt2
          · rw [if_pos hne] at heq
            injection heq with h1 h23
            injection h23 with h2 h3
            subst h1 h2 h3
            refine ⟨⟨by omega, fun _ => by omega⟩, ?_, ?_, faceSub_or_left _ _, ?_⟩
            · intro p
              constructor
              · exact fun hp => Or.inl hp
              · rintro (hp | ⟨hh1, hh2, hh3⟩)
                · exact hp
                · omega
            · intro t ht1 ht2
              omega
            · intro f hf
              rcases faceOr_cases hf with hq | hv
              · exact Or.inl hq
              · exact Or.inr ⟨(x_ + 1, z), (bt2, vf), hc, hv⟩
          · rw [if_neg hne] at heq
            have hbt : bt = bt2 := not_not.mp hne
            rw [not_or] at hcond
            obtain ⟨hnv, hnhl⟩ := hcond
            obtain ⟨⟨hle, hlt0⟩, hmem, hcons, hsub, hprov⟩ :=
              ih (x_ + 1) (faceOr qf vf) ((x_ + 1, z) :: v) xm qf2 v2 (by omega) heq
            have hx1 : x_ + 1 < CHUNK_SIZE := (hbound _ _ hc).1
            have hlt : x_ + 1 < xm := hlt0 hx1
            refine ⟨⟨by omega, fun _ => by omega⟩, ?_, ?_, ?_, ?_⟩
            · intro p
              rw [hmem p]
              simp only [List.mem_cons]
              obtain ⟨p1, p2⟩ := p
              constructor
              · rintro ((hp | hp) | ⟨hh1, hh2, hh3⟩)
                · rw [Prod.mk.injEq] at hp
                  exact Or.inr ⟨by omega, by omega, hp.2⟩
                · exact Or.inl hp
                · exact Or.inr ⟨by omega, hh2, hh3⟩
              · rintro (hp | ⟨hh1, hh2, hh3⟩)
                · exact Or.inl (Or.inr hp)
                · by_cases hph : p1 = x_ + 1
                  · subst hph hh3
                    exact Or.inl (Or.inl rfl)
                  · exact Or.inr ⟨by omega, hh2, hh3⟩
            · intro t ht1 ht2
              by_cases hteq : t = x_ + 1
              · subst hteq
                refine ⟨hnv, hnhl, vf, ?_, ?_⟩
                · rw [hc, hbt]
                · exact faceSub_trans (faceSub_or_right qf vf) hsub
              · obtain ⟨htv, hthl, vft, hvt, hvs⟩ := hcons t (by omega) ht2
                refine ⟨fun hmemv => htv (List.mem_cons_of_mem _ hmemv), hthl, vft,
                  hvt, hvs⟩
            · exact faceSub_trans (faceSub_or_left qf vf) hsub
            · intro f hf
              rcases hprov f hf with hq | hex
              · rcases faceOr_cases hq with hq2 | hv
                · exact Or.inl hq2
                · exact Or.inr ⟨(x_ + 1, z), (bt2, vf), hc, hv⟩
              · exact Or.inr hex
    · rw [if_neg h] at heq
      injection heq with h1 h23
      injection h23 with h2 h3
      subst h1 h2 h3
      refine ⟨⟨Nat.le_refl _, fun hx => absurd hx h⟩, ?_, ?_, faceSub_refl _,
        fun f hf => Or.inl hf⟩
      · intro p
        constructor
        · exact fun hp => Or.inl hp
        · rintro (hp | ⟨hh1, hh2, hh3⟩)
          · exact hp
          · omega
      · intro t ht1 ht2
        omega

theorem mem_row_iff (x xmax t : Nat) :
    t ∈ List.range' x (xmax - x) ↔ x ≤ t ∧ t < xmax := by
  rw [List.mem_range'_1]
  omega

theorem checkRow_spec (culled : CoordinateXZ → Option BlockFace) (hl : Option V3n)
    (y zmax : Nat) (bt : BlockType) (v : List CoordinateXZ) :
    ∀ (row : List Nat) (qf : FaceFlags) (ok : Bool) (qf2 : FaceFlags),
      checkRow culled hl y zmax bt v row qf = (ok, qf2) →
      faceSub qf qf2 ∧
      (∀ f, qf2 f = true → qf f = true ∨ ∃ p bf, culled p = some bf ∧ bf.2 f = true) ∧
      (ok = true → ∀ t ∈ row, (t, zmax) ∉ v ∧ hl ≠ some (t, y, zmax) ∧
        ∃ vf, culled (t, zmax) = some (bt, vf) ∧ faceSub vf qf2) := by
  intro row
  induction row with
  | nil =>
    intro qf ok qf2 heq
    rw [checkRow] at heq
    injection heq with h1 h2
    subst h1 h2
    exact ⟨faceSub_refl _, fun f hf => Or.inl hf, fun _ t ht => absurd ht (by simp)⟩
  | cons a rest ih =>
    intro qf ok qf2 heq
    rw [checkRow] at heq
    by_cases hcond : (a, zmax) ∈ v ∨ hl = some (a, y, zmax)
    · rw [if_pos hcond] at heq
      injection heq with h1 h2
      subst h1 h2
      exact ⟨faceSub_refl _, fun f hf => Or.inl hf, fun hok => by simp at hok⟩
    · rw [if_neg hcond] at heq
      rcases hc : culled (a, zmax) with - | ⟨bt2, vf⟩
      · rw [hc] at heq
        dsimp only at heq
        injection heq with h1 h2
        subst h1 h2
        exact ⟨faceSub_refl _, fun f hf => Or.inl hf, fun hok => by simp at hok⟩
      · rw [hc] at heq
        dsimp only at heq
        by_cases hne : bt ≠ bt2
        · rw [if_pos hne] at heq
          injection heq with h1 h2
          subst h1 h2
          refine ⟨faceSub_or_left _ _, ?_, fun hok => by simp at hok⟩
          intro f hf
          rcases faceOr_cases hf with hq | hv
          · exact Or.inl hq
          · exact Or.inr ⟨(a, zmax), (bt2, vf), hc, hv⟩
        · rw [if_neg hne] at heq
          have hbt : bt = bt2 := not_not.mp hne
          rw [not_or] at hcond
          obtain ⟨hnv, hnhl⟩ := hcond
          obtain ⟨hsub, hprov, hcells⟩ := ih _ _ _ heq
          refine ⟨faceSub_trans (faceSub_or_left qf vf) hsub, ?_, ?_⟩
          · intro f hf
            rcases hprov f hf with hq | hex
            · rcases faceOr_cases hq with hq2 | hv
              · exact Or.inl hq2
              · exact Or.inr ⟨(a, zmax), (bt2, vf), hc, hv⟩
            · exact Or.inr hex
          · intro hok t ht
            rcases List.mem_cons.mp ht with rfl | htr
            · refine ⟨hnv, hnhl, vf, ?_, ?_⟩
              · rw [hc, hbt]
              · exact faceSub_trans (faceSub_or_right qf vf) hsub
            · exact hcells hok t htr

theorem extendZ_spec (culled : CoordinateXZ → Option BlockFace) (hl : Option V3n)
    (y x xmax : Nat) (bt : BlockType)
    (hbound : ∀ p bf, culled p = some bf → p.1 < CHUNK_SIZE ∧ p.2 < CHUNK_SIZE) :
    ∀ (fuel z_ : Nat) (qf : FaceFlags) (v : List CoordinateXZ) (zm : Nat)
      (qf2 : FaceFlags) (v2 : List CoordinateXZ),
      CHUNK_SIZE ≤ fuel + z_ →
      extendZ culled hl y x xmax bt fuel z_ qf v = (zm, qf2, v2) →
      (z_ ≤ zm ∧ (z_ < CHUNK_SIZE → z_ < zm)) ∧
      (∀ p : CoordinateXZ, p ∈ v2 ↔
        p ∈ v ∨ (x ≤ p.1 ∧ p.1 < xmax ∧ z_ < p.2 ∧ p.2 < zm)) ∧
      (∀ t w, x ≤ t → t < xmax → z_ < w → w < zm →
        (t, w) ∉ v ∧ hl ≠ some (t, y, w) ∧
        ∃ vf, culled (t, w) = some (bt, vf) ∧ faceSub vf qf2) ∧
      faceSub qf qf2 ∧
      (∀ f, qf2 f = true → qf f = true ∨ ∃ p bf, culled p = some bf ∧ bf.2 f = true) := by
  intro fuel
  induction fuel with
  | zero =>
    intro z_ qf v zm qf2 v2 hfuel heq
    rw [extendZ] at heq
    injection heq with h1 h23
    injection h23 with h2 h3
    subst h1 h2 h3
    refine ⟨⟨Nat.le_refl _, fun hz => by omega⟩, ?_, ?_, faceSub_refl _,
      fun f hf => Or.inl hf⟩
    · intro p
      constructor
      · exact fun hp => Or.inl hp
      · rintro (hp | ⟨hh1, hh2, hh3, hh4⟩)
        · exact hp
        · omega
    · intro t w ht1 ht2 hw1 hw2
      omega
  | succ fuel ih =>
    intro z_ qf v zm qf2 v2 hfuel heq
    rw [extendZ] at heq
    by_cases h : z_ < CHUNK_SIZE
    · rw [if_pos h] at heq
      rcases hrow : checkRow culled hl y (z_ + 1) bt v (List.range' x (xmax - x)) qf
        with ⟨ok, qf2r⟩
      rw [hrow] at heq
      dsimp only at heq
      obtain ⟨hsubR, hprovR, hcellsR⟩ :=
        checkRow_spec culled hl y (z_ + 1) bt v _ _ _ _ hrow
      cases ok with
      | false =>
        rw [if_neg (by simp)] at heq
        injection heq with h1 h23
        injection h23 with h2 h3
        subst h1 h2 h3
        refine ⟨⟨by omega, fun _ => by omega⟩, ?_, ?_, hsubR, hprovR⟩
        · intro p
          constructor
          · exact fun hp => Or.inl hp
          · rintro (hp | ⟨hh1, hh2, hh3, hh4⟩)
            · exact hp
            · omega
        · intro t w ht1 ht2 hw1 hw2
          omega
      | true =>
        rw [if_pos rfl] at heq
        obtain ⟨⟨hle, hlt0⟩, hmem, hcons, hsub, hprov⟩ :=
          ih (z_ + 1) qf2r _ zm qf2 v2 (by omega) heq
        have hlt1 : x < xmax → z_ + 1 < zm := by
          intro hxx
          obtain ⟨-, -, vf0, hc0, -⟩ :=
            hcellsR rfl x ((mem_row_iff x xmax x).mpr ⟨Nat.le_refl x, hxx⟩)
          exact hlt0 (hbound _ _ hc0).2
        refine ⟨⟨by omega, fun _ => by omega⟩, ?_, ?_, faceSub_trans hsubR hsub, ?_⟩
        · intro p
          rw [hmem p]
          obtain ⟨p1, p2⟩ := p
          simp only [List.mem_append, List.mem_map, mem_row_iff, Prod.mk.injEq]
          constructor
          · rintro ((⟨t, ⟨ht1, ht2⟩, rfl, rfl⟩ | hv) | ⟨hh1, hh2, hh3, hh4⟩)
            · exact Or.inr ⟨ht1, ht2, by omega, hlt1 (by omega)⟩
            · exact Or.inl hv
            · exact Or.inr ⟨hh1, hh2, by omega, hh4⟩
          · rintro (hv | ⟨hh1, hh2, hh3, hh4⟩)
            · exact Or.inl (Or.inr hv)
            · by_cases hpz : p2 = z_ + 1
              · exact Or.inl (Or.inl ⟨p1, ⟨hh1, hh2⟩, rfl, hpz.symm⟩)
              · exact Or.inr ⟨hh1, hh2, by omega, hh4⟩
        · intro t w ht1 ht2 hw1 hw2
          by_cases hweq : w = z_ + 1
          · subst hweq
            obtain ⟨hntv, hnthl, vfc, hcc, hvsub⟩ :=
              hcellsR rfl t ((mem_row_iff x xmax t).mpr ⟨ht1, ht2⟩)
            exact ⟨hntv, hnthl, vfc, hcc, faceSub_trans hvsub hsub⟩
          · obtain ⟨hntv, hnthl, vfc, hcc, hvsub⟩ := hcons t w ht1 ht2 (by omega) hw2
            refine ⟨fun hmv => hntv (List.mem_append.mpr (Or.inr hmv)), hnthl, vfc,
              hcc, hvsub⟩
        · intro f hf
          rcases hprov f hf with hq | hex
          · exact hprovR f hq
          · exact Or.inr hex
    · rw [if_neg h] at heq
      injection heq with h1 h23
      injection h23 with h2 h3
      subst h1 h2 h3
      refine ⟨⟨Nat.le_refl _, fun hz => absurd hz h⟩, ?_, ?_, faceSub_refl _,
        fun f hf => Or.inl hf⟩
      · intro p
        constructor
        · exact fun hp => Or.inl hp
        · rintro (hp | ⟨hh1, hh2, hh3, hh4⟩)
          · exact hp
          · omega
      · intro t w ht1 ht2 hw1 hw2
        omega

theorem covers_unit_iff (q : Quad) (offset : V3i) (x z : Nat)
    (hpos1 : q.position.1 = offset.1 + (x : Int))
    (hpos3 : q.position.2.2 = offset.2.2 + (z : Int))
    (hdx : q.dx = 1) (hdz : q.dz = 1) (p : CoordinateXZ) :
    q.covers offset p ↔ p = (x, z) := by
  obtain ⟨p1, p2⟩ := p
  simp only [Quad.covers, hpos1, hpos3, hdx, hdz, Prod.mk.injEq]
  omega

theorem covers_rect_iff (q : Quad) (offset : V3i) (x z xm zm : Nat)
    (hpos1 : q.position.1 = offset.1 + (x : Int))
    (hpos3 : q.position.2.2 = offset.2.2 + (z : Int))
    (hdx : q.dx = ((xm - x : Nat) : Int)) (hdz : q.dz = ((zm - z : Nat) : Int))
    (p : CoordinateXZ) :
    q.covers offset p ↔ (x ≤ p.1 ∧ p.1 < xm ∧ z ≤ p.2 ∧ p.2 < zm) := by
  obtain ⟨p1, p2⟩ := p
  simp only [Quad.covers, hpos1, hpos3, hdx, hdz]
  omega

theorem layerGo_cons_visited (culled : CoordinateXZ → Option BlockFace)
    (highlighted : Option (V3n × V3i)) (y : Nat) (offset : V3i)
    (x z : Nat) (rest visited : List CoordinateXZ) (hvis : (x, z) ∈ visited) :
    layerGo culled highlighted y offset ((x, z) :: rest) visited =
      layerGo culled highlighted y offset rest visited := by
  simp only [layerGo]
  rw [if_pos hvis]

theorem layerGo_cons_none (culled : CoordinateXZ → Option BlockFace)
    (highlighted : Option (V3n × V3i)) (y : Nat) (offset : V3i)
    (x z : Nat) (rest visited : List CoordinateXZ)
    (hvis : (x, z) ∉ visited) (hc : culled (x, z) = none) :
    layerGo culled highlighted y offset ((x, z) :: rest) visited =
      layerGo culled highlighted y offset rest ((x, z) :: visited) := by
  simp only [layerGo]
  rw [if_neg hvis, hc]

theorem layerGo_cons_hl (culled : CoordinateXZ → Option BlockFace)
    (highlighted : Option (V3n × V3i)) (y : Nat) (offset : V3i)
    (x z : Nat) (rest visited : List CoordinateXZ) (bt : BlockType) (vf : FaceFlags)
    (hvis : (x, z) ∉ visited) (hc : culled (x, z) = some (bt, vf))
    (hhl : highlighted.map Prod.fst = some (x, y, z)) :
    layerGo culled highlighted y offset ((x, z) :: rest) visited =
      ({ Quad.new (offset.1 + (x : Int), offset.2.1 + (y : Int), offset.2.2 + (z : Int))
            1 1 with
          highlighted_normal := (highlighted.map Prod.snd).getD (0, 0, 0)
          visible_faces := vf
          block_type := some bt }
        :: (layerGo culled highlighted y offset rest ((x, z) :: visited)).1,
       (layerGo culled highlighted y offset rest ((x, z) :: visited)).2) := by
  simp only [layerGo]
  rw [if_neg hvis, hc]
  dsimp only
  rw [if_pos hhl]

theorem layerGo_cons_water (culled : CoordinateXZ → Option BlockFace)
    (highlighted : Option (V3n × V3i)) (y : Nat) (offset : V3i)
    (x z : Nat) (rest visited : List CoordinateXZ) (vf : FaceFlags)
    (hvis : (x, z) ∉ visited) (hc : culled (x, z) = some (BlockType.water, vf))
    (hhl : ¬ highlighted.map Prod.fst = some (x, y, z)) :
    layerGo culled highlighted y offset ((x, z) :: rest) visited =
      ({ Quad.new (offset.1 + (x : Int), offset.2.1 + (y : Int), offset.2.2 + (z : Int))
            1 1 with
          visible_faces := vf
          block_type := some BlockType.water }
        :: (layerGo culled highlighted y offset rest ((x, z) :: visited)).1,
       (layerGo culled highlighted y offset rest ((x, z) :: visited)).2) := by
  simp only [layerGo]
  rw [if_neg hvis, hc]
  dsimp only
  rw [if_neg hhl, if_pos rfl]

theorem layerGo_cons_merge (culled : CoordinateXZ → Option BlockFace)
    (highlighted : Option (V3n × V3i)) (y : Nat) (offset : V3i)
    (x z : Nat) (rest visited : List CoordinateXZ) (bt : BlockType) (vf : FaceFlags)
    (xm : Nat) (qf1 : FaceFlags) (v2 : List CoordinateXZ)
    (zm : Nat) (qf2 : FaceFlags) (v3 : List CoordinateXZ)
    (hvis : (x, z) ∉ visited) (hc : culled (x, z) = some (bt, vf))
    (hhl : ¬ highlighted.map Prod.fst = some (x, y, z)) (hnw : ¬ bt = BlockType.water)
    (hex : extendX culled (highlighted.map Prod.fst) y z bt (CHUNK_SIZE - x) x vf
      ((x, z) :: visited) = (xm, qf1, v2))
    (hez : extendZ culled (highlighted.map Prod.fst) y x xm bt (CHUNK_SIZE - z) z qf1 v2
      = (zm, qf2, v3)) :
    layerGo culled highlighted y offset ((x, z) :: rest) visited =
      ({ Quad.new (offset.1 + (x : Int), offset.2.1 + (y : Int), offset.2.2 + (z : Int))
            ((xm - x : Nat) : Int) ((zm - z : Nat) : Int) with
          visible_faces := qf2
          block_type := some bt }
        :: (layerGo culled highlighted y offset rest v3).1,
       (layerGo culled highlighted y offset rest v3).2) := by
  simp only [layerGo]
  rw [if_neg hvis, hc]
  dsimp only
  rw [if_neg hhl, if_neg hnw, hex]
  dsimp only
  rw [hez]

theorem layerGo_spec (culled : CoordinateXZ → Option BlockFace)
    (highlighted : Option (V3n × V3i)) (y : Nat) (offset : V3i)
    (hbound : ∀ p bf, culled p = some bf → p.1 < CHUNK_SIZE ∧ p.2 < CHUNK_SIZE) :
    ∀ (queue visited : List CoordinateXZ),
      (∀ q ∈ (layerGo culled highlighted y offset queue visited).1,
        q.position.2.1 = offset.2.1 + (y : Int) ∧
        (∀ p : CoordinateXZ, q.covers offset p →
          p ∉ visited ∧
          ∃ bf, culled p = some bf ∧ q.block_type = some bf.1 ∧
            faceSub bf.2 q.visible_faces) ∧
        (∀ f, q.visible_faces f = true →
          ∃ p bf, culled p = some bf ∧ bf.2 f = true)) ∧
      List.Pairwise (quadsDisjoint offset)
        (layerGo culled highlighted y offset queue visited).1 ∧
      (∀ p bf, p ∈ queue → culled p = some bf → p ∉ visited →
        ∃ q ∈ (layerGo culled highlighted y offset queue visited).1,
          q.covers offset p ∧ faceSub bf.2 q.visible_faces) ∧
      (∀ q ∈ (layerGo culled highlighted y offset queue visited).1,
        ∀ hx hz : Nat, ∀ n : V3i,
          highlighted = some ((hx, y, hz), n) → q.covers offset (hx, hz) →
          ∃ bf, culled (hx, hz) = some bf ∧ q = hlQuad offset hx y hz n bf) := by
  intro queue
  induction queue with
  | nil =>
    intro visited
    simp [layerGo]
  | cons hd rest ih =>
    obtain ⟨x, z⟩ := hd
    intro visited
    by_cases hvis : (x, z) ∈ visited
    · rw [layerGo_cons_visited culled highlighted y offset x z rest visited hvis]
      obtain ⟨hQ, hP, hC, hF⟩ := ih visited
      refine ⟨hQ, hP, ?_, hF⟩
      intro p bf hpq hcp hnv
      rcases List.mem_cons.mp hpq with rfl | hin
      · exact absurd hvis hnv
      · exact hC p bf hin hcp hnv
    · rcases hcull : culled (x, z) with - | ⟨bt, vf⟩
      · rw [layerGo_cons_none culled highlighted y offset x z rest visited hvis hcull]
        obtain ⟨hQ, hP, hC, hF⟩ := ih ((x, z) :: visited)
        refine ⟨?_, hP, ?_, hF⟩
        · intro q hq
          obtain ⟨hy0, hcov, hprov⟩ := hQ q hq
          refine ⟨hy0, ?_, hprov⟩
          intro p hp
          exact ⟨fun hpv => (hcov p hp).1 (List.mem_cons_of_mem _ hpv), (hcov p hp).2⟩
        · intro p bf hpq hcp hnv
          rcases List.mem_cons.mp hpq with rfl | hin
          · rw [hcull] at hcp
            exact absurd hcp (by simp)
          · refine hC p bf hin hcp ?_
            intro hmem
            rcases List.mem_cons.mp hmem with heq2 | hmem2
            · rw [heq2] at hcp
              rw [hcull] at hcp
              exact absurd hcp (by simp)
            · exact hnv hmem2
      · by_cases hhl : highlighted.map Prod.fst = some (x, y, z)
        · -- highlight branch
          rcases highlighted with - | ⟨hcoord, hnorm⟩
          · simp at hhl
          have hco : hcoord = (x, y, z) := by simpa using hhl
          subst hco
          rw [layerGo_cons_hl culled (some ((x, y, z), hnorm)) y offset x z rest visited
            bt vf hvis hcull (by simp)]
          obtain ⟨hQ, hP, hC, hF⟩ := ih ((x, z) :: visited)
          have hcovq : ∀ p : CoordinateXZ,
              Quad.covers { Quad.new (offset.1 + (x : Int), offset.2.1 + (y : Int),
                  offset.2.2 + (z : Int)) 1 1 with
                highlighted_normal := ((some ((x, y, z), hnorm)).map Prod.snd).getD (0, 0, 0)
                visible_faces := vf
                block_type := some bt } offset p ↔ p = (x, z) := by
            intro p
            exact covers_unit_iff _ offset x z rfl rfl rfl rfl p
          refine ⟨?_, ?_, ?_, ?_⟩
          · intro q hq
            rcases List.mem_cons.mp hq with rfl | hqr
            · refine ⟨rfl, ?_, ?_⟩
              · intro p hp
                rw [hcovq p] at hp
                subst hp
                exact ⟨hvis, (bt, vf), hcull, rfl, faceSub_refl _⟩
              · intro f hf
                exact ⟨(x, z), (bt, vf), hcull, hf⟩
            · obtain ⟨hy0, hcov, hprov⟩ := hQ q hqr
              refine ⟨hy0, ?_, hprov⟩
              intro p hp
              exact ⟨fun hpv => (hcov p hp).1 (List.mem_cons_of_mem _ hpv), (hcov p hp).2⟩
          · refine List.Pairwise.cons ?_ hP
            intro q2 hq2 p hpboth
            rw [hcovq p] at hpboth
            obtain ⟨hp1, hp2⟩ := hpboth
            subst hp1
            exact ((hQ q2 hq2).2.1 _ hp2).1 (List.mem_cons_self _ _)
          · intro p bf hpq hcp hnv
            by_cases hpe : p = (x, z)
            · subst hpe
              rw [hcull] at hcp
              injection hcp with hbf
              subst hbf
              exact ⟨_, List.mem_cons_self _ _, (hcovq (x, z)).mpr rfl, faceSub_refl _⟩
            · rcases List.mem_cons.mp hpq with heq2 | hin
              · exact absurd heq2 hpe
              · obtain ⟨q, hqm, hqc, hqs⟩ := hC p bf hin hcp
                  (fun hmem => (List.mem_cons.mp hmem).elim hpe hnv)
                exact ⟨q, List.mem_cons_of_mem _ hqm, hqc, hqs⟩
          · intro q hq hx hz n hhleq hqcov
            rcases List.mem_cons.mp hq with rfl | hqr
            · injection hhleq with hpair
              injection hpair with hc1 hc2
              injection hc1 with he1 he23
              injection he23 with he2 he3
              subst he1 he3 hc2
              refine ⟨(bt, vf), hcull, ?_⟩
              rfl
            · exact hF q hqr hx hz n hhleq hqcov
        · by_cases hnw : bt = BlockType.water
          · -- water branch
            subst hnw
            rw [layerGo_cons_water culled highlighted y offset x z rest visited vf
              hvis hcull hhl]
            obtain ⟨hQ, hP, hC, hF⟩ := ih ((x, z) :: visited)
            have hcovq : ∀ p : CoordinateXZ,
                Quad.covers { Quad.new (offset.1 + (x : Int), offset.2.1 + (y : Int),
                    offset.2.2 + (z : Int)) 1 1 with
                  visible_faces := vf
                  block_type := some BlockType.water } offset p ↔ p = (x, z) := by
              intro p
              exact covers_unit_iff _ offset x z rfl rfl rfl rfl p
            refine ⟨?_, ?_, ?_, ?_⟩
            · intro q hq
              rcases List.mem_cons.mp hq with rfl | hqr
              · refine ⟨rfl, ?_, ?_⟩
                · intro p hp
                  rw [hcovq p] at hp
                  subst hp
                  exact ⟨hvis, (BlockType.water, vf), hcull, rfl, faceSub_refl _⟩
                · intro f hf
                  exact ⟨(x, z), (BlockType.water, vf), hcull, hf⟩
              · obtain ⟨hy0, hcov, hprov⟩ := hQ q hqr
                refine ⟨hy0, ?_, hprov⟩
                intro p hp
                exact ⟨fun hpv => (hcov p hp).1 (List.mem_cons_of_mem _ hpv), (hcov p hp).2⟩
            · refine List.Pairwise.cons ?_ hP
              intro q2 hq2 p hpboth
              rw [hcovq p] at hpboth
              obtain ⟨hp1, hp2⟩ := hpboth
              subst hp1
              exact ((hQ q2 hq2).2.1 _ hp2).1 (List.mem_cons_self _ _)
            · intro p bf hpq hcp hnv
              by_cases hpe : p = (x, z)
              · subst hpe
                rw [hcull] at hcp
                injection hcp with hbf
                subst hbf
                exact ⟨_, List.mem_cons_self _ _, (hcovq (x, z)).mpr rfl, faceSub_refl _⟩
              · rcases List.mem_cons.mp hpq with heq2 | hin
                · exact absurd heq2 hpe
                · obtain ⟨q, hqm, hqc, hqs⟩ := hC p bf hin hcp
                    (fun hmem => (List.mem_cons.mp hmem).elim hpe hnv)
                  exact ⟨q, List.mem_cons_of_mem _ hqm, hqc, hqs⟩
            · intro q hq hx hz n hhleq hqcov
              rcases List.mem_cons.mp hq with rfl | hqr
              · rw [hcovq (hx, hz)] at hqcov
                exfalso
                apply hhl
                rw [hhleq]
                injection hqcov with hq1 hq2
                subst hq1 hq2
                rfl
              · exact hF q hqr hx hz n hhleq hqcov
          · -- merge branch
            rcases hex : extendX culled (highlighted.map Prod.fst) y z bt
              (CHUNK_SIZE - x) x vf ((x, z) :: visited) with ⟨xm, qf1, v2⟩
            rcases hez : extendZ culled (highlighted.map Prod.fst) y x xm bt
              (CHUNK_SIZE - z) z qf1 v2 with ⟨zm, qf2, v3⟩
            rw [layerGo_cons_merge culled highlighted y offset x z rest visited bt vf
              xm qf1 v2 zm qf2 v3 hvis hcull hhl hnw hex hez]
            obtain ⟨⟨hXle, hXlt0⟩, hXmem, hXcons, hXsub, hXprov⟩ :=
              extendX_spec culled (highlighted.map Prod.fst) y z bt hbound
                (CHUNK_SIZE - x) x vf ((x, z) :: visited) xm qf1 v2 (by omega) hex
            obtain ⟨⟨hZle, hZlt0⟩, hZmem, hZcons, hZsub, hZprov⟩ :=
              extendZ_spec culled (highlighted.map Prod.fst) y x xm bt hbound
                (CHUNK_SIZE - z) z qf1 v2 zm qf2 v3 (by omega) hez
            have hx32 : x < CHUNK_SIZE := (hbound _ _ hcull).1
            have hz32 : z < CHUNK_SIZE := (hbound _ _ hcull).2
            have hxlt : x < xm := hXlt0 hx32
            have hzlt : z < zm := hZlt0 hz32
            obtain ⟨hQ, hP, hC, hF⟩ := ih v3
            have hcovq : ∀ p : CoordinateXZ,
                Quad.covers { Quad.new (offset.1 + (x : Int), offset.2.1 + (y : Int),
                    offset.2.2 + (z : Int)) ((xm - x : Nat) : Int) ((zm - z : Nat) : Int) with
                  visible_faces := qf2
                  block_type := some bt } offset p ↔
                (x ≤ p.1 ∧ p.1 < xm ∧ z ≤ p.2 ∧ p.2 < zm) := by
              intro p
              exact covers_rect_iff _ offset x z xm zm rfl rfl rfl rfl p
            -- membership of the footprint in v3, and the three zones
            have hseed_v2 : ((x, z) : CoordinateXZ) ∈ v2 :=
              (hXmem (x, z)).mpr (Or.inl (List.mem_cons_self _ _))
            have hvsub2 : ∀ p : CoordinateXZ, p ∈ (x, z) :: visited → p ∈ v2 :=
              fun p hp => (hXmem p).mpr (Or.inl hp)
            have hvsub3 : ∀ p : CoordinateXZ, p ∈ v2 → p ∈ v3 :=
              fun p hp => (hZmem p).mpr (Or.inl hp)
            have hfp : ∀ p : CoordinateXZ,
                x ≤ p.1 → p.1 < xm → z ≤ p.2 → p.2 < zm →
                p ∉ visited ∧ p ∈ v3 ∧
                ∃ vfp, culled p = some (bt, vfp) ∧ faceSub vfp qf2 ∧
                  (p ≠ (x, z) → highlighted.map Prod.fst ≠ some (p.1, y, p.2)) := by
              intro p hp1 hp2 hp3 hp4
              obtain ⟨p1, p2⟩ := p
              by_cases hpz : p2 = z
              · subst hpz
                by_cases hpx : p1 = x
                · subst hpx
                  refine ⟨hvis, hvsub3 _ hseed_v2, vf, hcull,
                    faceSub_trans hXsub hZsub, ?_⟩
                  intro hne
                  exact absurd rfl hne
                · have hxl : x < p1 := by omega
                  obtain ⟨hnv1, hnhl1, vfp, hcp, hsp⟩ := hXcons p1 hxl hp2
                  refine ⟨fun hv => hnv1 (List.mem_cons_of_mem _ hv),
                    hvsub3 _ ((hXmem (p1, p2)).mpr (Or.inr ⟨hxl, hp2, rfl⟩)),
                    vfp, hcp, faceSub_trans hsp hZsub, fun _ => hnhl1⟩
              · have hzl : z < p2 := by omega
                obtain ⟨hnv1, hnhl1, vfp, hcp, hsp⟩ := hZcons p1 p2 hp1 hp2 hzl hp4
                refine ⟨fun hv => hnv1 (hvsub2 _ (List.mem_cons_of_mem _ hv)),
                  (hZmem (p1, p2)).mpr (Or.inr ⟨hp1, hp2, hzl, hp4⟩),
                  vfp, hcp, hsp, fun _ => hnhl1⟩
            have hvis3 : ∀ p : CoordinateXZ, p ∈ visited → p ∈ v3 :=
              fun p hp => hvsub3 _ (hvsub2 _ (List.mem_cons_of_mem _ hp))
            refine ⟨?_, ?_, ?_, ?_⟩
            · intro q hq
              rcases List.mem_cons.mp hq with rfl | hqr
              · refine ⟨rfl, ?_, ?_⟩
                · intro p hp
                  rw [hcovq p] at hp
                  obtain ⟨hp1, hp2, hp3, hp4⟩ := hp
                  obtain ⟨hnv, hinv3, vfp, hcp, hsp, -⟩ := hfp p hp1 hp2 hp3 hp4
                  exact ⟨hnv, (bt, vfp), hcp, rfl, hsp⟩
                · intro f hf
                  rcases hZprov f hf with hq1 | hex2
                  · rcases hXprov f hq1 with hv0 | hex2
                    · exact ⟨(x, z), (bt, vf), hcull, hv0⟩
                    · exact hex2
                  · exact hex2
              · obtain ⟨hy0, hcov, hprov⟩ := hQ q hqr
                refine ⟨hy0, ?_, hprov⟩
                intro p hp
                exact ⟨fun hpv => (hcov p hp).1 (hvis3 p hpv), (hcov p hp).2⟩
            · refine List.Pairwise.cons ?_ hP
              intro q2 hq2 p hpboth
              rw [hcovq p] at hpboth
              obtain ⟨⟨hp1, hp2, hp3, hp4⟩, hpc2⟩ := hpboth
              obtain ⟨-, hinv3, -⟩ := hfp p hp1 hp2 hp3 hp4
              exact ((hQ q2 hq2).2.1 p hpc2).1 hinv3
            · intro p bf hpq hcp hnv
              by_cases hrect : x ≤ p.1 ∧ p.1 < xm ∧ z ≤ p.2 ∧ p.2 < zm
              · obtain ⟨hp1, hp2, hp3, hp4⟩ := hrect
                obtain ⟨-, -, vfp, hcp2, hsp, -⟩ := hfp p hp1 hp2 hp3 hp4
                rw [hcp] at hcp2
                injection hcp2 with hbf
                subst hbf
                exact ⟨_, List.mem_cons_self _ _,
                  (hcovq p).mpr ⟨hp1, hp2, hp3, hp4⟩, hsp⟩
              · have hpe : p ≠ (x, z) := by
                  intro hpe
                  subst hpe
                  exact hrect ⟨Nat.le_refl _, hxlt, Nat.le_refl _, hzlt⟩
                rcases List.mem_cons.mp hpq with heq2 | hin
                · exact absurd heq2 hpe
                · have hnv3 : p ∉ v3 := by
                    intro hpv3
                    rcases (hZmem p).mp hpv3 with hpv2 | hzo
                    · rcases (hXmem p).mp hpv2 with hpv1 | hxo
                      · rcases List.mem_cons.mp hpv1 with heq3 | hv
                        · exact hpe heq3
                        · exact hnv hv
                      · exact hrect ⟨by omega, hxo.2.1, by omega, by omega⟩
                    · exact hrect ⟨hzo.1, hzo.2.1, by omega, hzo.2.2.2⟩
                  obtain ⟨q, hqm, hqc, hqs⟩ := hC p bf hin hcp hnv3
                  exact ⟨q, List.mem_cons_of_mem _ hqm, hqc, hqs⟩
            · intro q hq hx hz n hhleq hqcov
              rcases List.mem_cons.mp hq with rfl | hqr
              · rw [hcovq (hx, hz)] at hqcov
                obtain ⟨hp1, hp2, hp3, hp4⟩ := hqcov
                obtain ⟨-, -, vfp, hcp, hsp, hnhlp⟩ := hfp (hx, hz) hp1 hp2 hp3 hp4
                exfalso
                by_cases hpe : ((hx, hz) : CoordinateXZ) = (x, z)
                · apply hhl
                  rw [hhleq]
                  injection hpe with hq1 hq2
                  subst hq1 hq2
                  rfl
                · apply hnhlp hpe
                  rw [hhleq]
                  rfl
              · exact hF q hqr hx hz n hhleq hqcov

theorem cull_layer_map_bounds (c : Chunk) (y : Nat) :
    ∀ p bf, c.cull_layer_map y p = some bf → p.1 < CHUNK_SIZE ∧ p.2 < CHUNK_SIZE := by
  intro p bf h
  rw [Chunk.cull_layer_map] at h
  by_cases hb : p.1 < CHUNK_SIZE ∧ p.2 < CHUNK_SIZE
  · exact hb
  · rw [if_neg hb] at h
    exact absurd h (by simp)

theorem cull_layer_map_eq_some_iff (c : Chunk) (y : Nat) (p : CoordinateXZ)
    (bf : BlockFace) :
    c.cull_layer_map y p = some bf ↔
      p.1 < CHUNK_SIZE ∧ p.2 < CHUNK_SIZE ∧
      ∃ b, c.blocks y p.2 p.1 = some b ∧
        c.check_visible_faces p.1 y p.2 ≠ FACE_NONE ∧
        bf = (b.block_type, c.check_visible_faces p.1 y p.2) := by
  rw [Chunk.cull_layer_map]
  by_cases hb : p.1 < CHUNK_SIZE ∧ p.2 < CHUNK_SIZE
  · rw [if_pos hb]
    rcases hblk : c.blocks y p.2 p.1 with - | b
    · simp [hb]
    · dsimp only
      by_cases hvf : c.check_visible_faces p.1 y p.2 = FACE_NONE
      · rw [if_pos hvf]
        simp [hb, hvf]
      · rw [if_neg hvf]
        simp only [Option.some.injEq, Block.mk.injEq]
        constructor
        · intro h
          exact ⟨hb.1, hb.2, b, rfl, hvf, h.symm⟩
        · rintro ⟨-, -, b2, hb2, -, rfl⟩
          rw [hb2]
  · rw [if_neg hb]
    constructor
    · intro h
      exact absurd h (by simp)
    · rintro ⟨h1, h2, -⟩
      exact absurd ⟨h1, h2⟩ hb

theorem mem_cull_layer_queue_iff (c : Chunk) (y : Nat) (p : CoordinateXZ) :
    p ∈ c.cull_layer_queue y ↔ ∃ bf, c.cull_layer_map y p = some bf := by
  obtain ⟨px, pz⟩ := p
  rw [Chunk.cull_layer_queue]
  simp only [List.mem_flatMap, List.mem_filterMap, List.mem_range]
  constructor
  · rintro ⟨z, hz, x, hx, hmem⟩
    rcases hblk : c.blocks y z x with - | b
    · rw [hblk] at hmem
      simp at hmem
    · rw [hblk] at hmem
      dsimp only at hmem
      by_cases hvf : c.check_visible_faces x y z = FACE_NONE
      · rw [if_pos hvf] at hmem
        exact absurd hmem (by simp)
      · rw [if_neg hvf] at hmem
        injection hmem with hmeme
        injection hmeme with he1 he2
        subst he1
        subst he2
        refine ⟨(b.block_type, c.check_visible_faces x y z), ?_⟩
        rw [cull_layer_map_eq_some_iff]
        exact ⟨hx, hz, b, hblk, hvf, rfl⟩
  · rintro ⟨bf, hbf⟩
    rw [cull_layer_map_eq_some_iff] at hbf
    obtain ⟨h1, h2, b, hblk, hvf, -⟩ := hbf
    refine ⟨pz, h2, px, h1, ?_⟩
    rw [hblk]
    dsimp only
    rw [if_neg hvf]

theorem layerGo_water_unit (culled : CoordinateXZ → Option BlockFace)
    (highlighted : Option (V3n × V3i)) (y : Nat) (offset : V3i) :
    ∀ (queue visited : List CoordinateXZ),
      ∀ q ∈ (layerGo culled highlighted y offset queue visited).1,
        q.block_type = some BlockType.water → q.dx = 1 ∧ q.dz = 1 := by
  intro queue
  induction queue with
  | nil =>
    intro visited q hq
    simp [layerGo] at hq
  | cons hd rest ih =>
    obtain ⟨x, z⟩ := hd
    intro visited q hq hqw
    by_cases hvis : (x, z) ∈ visited
    · rw [layerGo_cons_visited culled highlighted y offset x z rest visited hvis] at hq
      exact ih visited q hq hqw
    · rcases hcull : culled (x, z) with - | ⟨bt, vf⟩
      · rw [layerGo_cons_none culled highlighted y offset x z rest visited hvis hcull]
          at hq
        exact ih _ q hq hqw
      · by_cases hhl : highlighted.map Prod.fst = some (x, y, z)
        · rw [layerGo_cons_hl culled highlighted y offset x z rest visited bt vf
            hvis hcull hhl] at hq
          rcases List.mem_cons.mp hq with rfl | hqr
          · exact ⟨rfl, rfl⟩
          · exact ih _ q hqr hqw
        · by_cases hnw : bt = BlockType.water
          · subst hnw
            rw [layerGo_cons_water culled highlighted y offset x z rest visited vf
              hvis hcull hhl] at hq
            rcases List.mem_cons.mp hq with rfl | hqr
            · exact ⟨rfl, rfl⟩
            · exact ih _ q hqr hqw
          · rcases hex : extendX culled (highlighted.map Prod.fst) y z bt
              (CHUNK_SIZE - x) x vf ((x, z) :: visited) with ⟨xm, qf1, v2⟩
            rcases hez : extendZ culled (highlighted.map Prod.fst) y x xm bt
              (CHUNK_SIZE - z) z qf1 v2 with ⟨zm, qf2, v3⟩
            rw [layerGo_cons_merge culled highlighted y offset x z rest visited bt vf
              xm qf1 v2 zm qf2 v3 hvis hcull hhl hnw hex hez] at hq
            rcases List.mem_cons.mp hq with rfl | hqr
            · exfalso
              apply hnw
              injection hqw
            · exact ih _ q hqr hqw

/-- C5: a quad of the water kind emitted for any layer is always 1×1 — adjacent
water cells are never merged. -/
theorem c5_water_unmerged (c : Chunk) (y : Nat) (offset : V3i)
    (highlighted : Option (V3n × V3i)) (q : Quad)
    (hq : q ∈ c.meshLayer y offset highlighted)
    (hw : q.block_type = some BlockType.water) :
    q.dx = 1 ∧ q.dz = 1 :=
  layerGo_water_unit (c.cull_layer_map y) highlighted y offset
    (c.cull_layer_queue y) [] q hq hw

/-- C10: the footprints of the quads emitted for a layer are pairwise disjoint,
and every covered cell is an occupied, cull-surviving cell whose block kind is
the quad's block kind. -/
theorem c10_quads_disjoint_culled (c : Chunk) (y : Nat) (offset : V3i)
    (highlighted : Option (V3n × V3i)) :
    List.Pairwise (quadsDisjoint offset) (c.meshLayer y offset highlighted) ∧
    ∀ q ∈ c.meshLayer y offset highlighted, ∀ p : CoordinateXZ,
      q.covers offset p →
      ∃ b : Block, c.blocks y p.2 p.1 = some b ∧
        c.check_visible_faces p.1 y p.2 ≠ FACE_NONE ∧
        q.block_type = some b.block_type := by
  obtain ⟨hQ, hP, hC, hF⟩ := layerGo_spec (c.cull_layer_map y) highlighted y offset
    (cull_layer_map_bounds c y) (c.cull_layer_queue y) []
  refine ⟨hP, ?_⟩
  intro q hq p hcov
  obtain ⟨-, hcovf, -⟩ := hQ q hq
  obtain ⟨-, bf, hbf, hqt, -⟩ := hcovf p hcov
  rw [cull_layer_map_eq_some_iff] at hbf
  obtain ⟨h1, h2, b, hblk, hvf, hbfeq⟩ := hbf
  subst hbfeq
  exact ⟨b, hblk, hvf, hqt⟩

/-- C4: a culled cell at the highlight coordinate is emitted as its own 1×1
quad carrying the highlighted-face normal, and no other quad ever covers it. -/
theorem c4_highlight_unmerged (c : Chunk) (y hx hz : Nat) (n : V3i) (offset : V3i)
    (bf : BlockFace)
    (hcull : c.cull_layer_map y (hx, hz) = some bf) :
    hlQuad offset hx y hz n bf ∈ c.meshLayer y offset (some ((hx, y, hz), n)) ∧
    ∀ q ∈ c.meshLayer y offset (some ((hx, y, hz), n)),
      q.covers offset (hx, hz) → q = hlQuad offset hx y hz n bf := by
  obtain ⟨hQ, hP, hC, hF⟩ := layerGo_spec (c.cull_layer_map y)
    (some ((hx, y, hz), n)) y offset (cull_layer_map_bounds c y)
    (c.cull_layer_queue y) []
  have hqmem : ((hx, hz) : CoordinateXZ) ∈ c.cull_layer_queue y :=
    (mem_cull_layer_queue_iff c y (hx, hz)).mpr ⟨bf, hcull⟩
  obtain ⟨q, hqm, hqc, hqs⟩ := hC (hx, hz) bf hqmem hcull (by simp)
  obtain ⟨bf2, hbf2, hqe⟩ := hF q hqm hx hz n rfl hqc
  rw [hcull] at hbf2
  injection hbf2 with hbf2e
  subst hbf2e
  constructor
  · rw [← hqe]
    exact hqm
  · intro q2 hq2 hcov2
    obtain ⟨bf3, hbf3, hqe3⟩ := hF q2 hq2 hx hz n rfl hcov2
    rw [hcull] at hbf3
    injection hbf3 with hbf3e
    subst hbf3e
    exact hqe3

/-- C1 (amended): merging hides no face — every culled cell is covered by a
quad whose mask contains the cell's mask — and fabricates no face at the layer
level — every face bit of every emitted quad comes from the mask of some
culled cell of the layer.  (Per-voxel equality fails; see the
counterexample.) -/
theorem meshLayer_covers (c : Chunk) (y : Nat) (offset : V3i)
    (hl : Option (V3n × V3i)) (p : CoordinateXZ) (bf : BlockFace)
    (hbf : c.cull_layer_map y p = some bf) :
    ∃ q ∈ c.meshLayer y offset hl,
      q.covers offset p ∧ faceSub bf.2 q.visible_faces := by
  obtain ⟨-, -, hC, -⟩ := layerGo_spec (c.cull_layer_map y) hl y offset
    (cull_layer_map_bounds c y) (c.cull_layer_queue y) []
  exact hC p bf ((mem_cull_layer_queue_iff c y p).mpr ⟨bf, hbf⟩) hbf (by simp)

theorem c1_coverage_amended (c : Chunk) (y : Nat) (offset : V3i)
    (highlighted : Option (V3n × V3i)) :
    (∀ p bf, c.cull_layer_map y p = some bf →
      ∃ q ∈ c.meshLayer y offset highlighted,
        q.covers offset p ∧ faceSub bf.2 q.visible_faces) ∧
    (∀ q ∈ c.meshLayer y offset highlighted, ∀ f, q.visible_faces f = true →
      ∃ p bf, c.cull_layer_map y p = some bf ∧ bf.2 f = true) := by
  obtain ⟨hQ, hP, hC, hF⟩ := layerGo_spec (c.cull_layer_map y) highlighted y offset
    (cull_layer_map_bounds c y) (c.cull_layer_queue y) []
  refine ⟨fun p bf hbf => meshLayer_covers c y offset highlighted p bf hbf, ?_⟩
  intro q hq f hf
  exact (hQ q hq).2.2 f hf

/-- C1 as stated is false: with two adjacent stone blocks at (0,0,0) and
(1,0,0), the merged 2×1 quad paints the right face of cell (1,0) onto cell
(0,0), so the per-voxel coverage reconstructed from the quads differs from the
cull-pass mask at cell (0,0) of layer 0. -/
theorem c1_per_voxel_counterexample :
    coverageAt (twoStoneChunk.meshLayer 0 (0, 0, 0) none) (0, 0, 0) (0, 0) ≠
      twoStoneChunk.cullMaskAt 0 (0, 0) := by decide

/-- C2 as stated is false: a chunk with every cell occupied by opaque stone
still emits quads, because chunk-boundary faces are always marked visible
(neighbour chunks are never consulted). -/
theorem c2_full_chunk_counterexample :
    fullStoneChunk.update_geometry_quads (0, 0, 0) none ≠ [] := by
  have hcm : (fullStoneChunk.cull_layer_map 0 (0, 0)).isSome = true := by decide
  obtain ⟨bf, hbf⟩ := Option.isSome_iff_exists.mp hcm
  obtain ⟨q, hqm, -⟩ :=
    meshLayer_covers fullStoneChunk 0 (chunkOffset (0, 0, 0)) none (0, 0) bf hbf
  intro hnil
  have hmem : q ∈ fullStoneChunk.update_geometry_quads (0, 0, 0) none := by
    simp only [Chunk.update_geometry_quads, Option.none_bind]
    rw [List.mem_flatMap]
    exact ⟨0, by simp [CHUNK_SIZE], hqm⟩
  rw [hnil] at hmem
  exact absurd hmem (List.not_mem_nil q)

theorem interior_mask_none (c : Chunk)
    (hfull : ∀ y z x, y < CHUNK_SIZE → z < CHUNK_SIZE → x < CHUNK_SIZE →
      (c.blocks y z x).any (fun b => !b.block_type.is_transparent) = true)
    (x y z : Nat) (hx1 : 0 < x) (hx2 : x < CHUNK_SIZE - 1)
    (hy1 : 0 < y) (hy2 : y < CHUNK_SIZE - 1)
    (hz1 : 0 < z) (hz2 : z < CHUNK_SIZE - 1) :
    c.check_visible_faces x y z = FACE_NONE := by
  have hopq : ∀ y2 z2 x2, y2 < CHUNK_SIZE → z2 < CHUNK_SIZE → x2 < CHUNK_SIZE →
      (c.blocks y2 z2 x2).isNone = false ∧
      optTransparent (c.blocks y2 z2 x2) = false := by
    intro y2 z2 x2 hy hz hx
    have h := hfull y2 z2 x2 hy hz hx
    rcases hblk : c.blocks y2 z2 x2 with - | b
    · rw [hblk] at h
      simp [Option.any] at h
    · rw [hblk] at h
      simp only [Option.any_some, Bool.not_eq_eq_eq_not, Bool.not_true] at h
      exact ⟨rfl, by simp [optTransparent, h]⟩
  obtain ⟨-, ht0⟩ := hopq y z x (by omega) (by omega) (by omega)
  obtain ⟨hnL, htL⟩ := hopq y z (x - 1) (by omega) (by omega) (by omega)
  obtain ⟨hnR, htR⟩ := hopq y z (x + 1) (by omega) (by omega) (by omega)
  obtain ⟨hnB, htB⟩ := hopq (y - 1) z x (by omega) (by omega) (by omega)
  obtain ⟨hnT, htT⟩ := hopq (y + 1) z x (by omega) (by omega) (by omega)
  obtain ⟨hnK, htK⟩ := hopq y (z - 1) x (by omega) (by omega) (by omega)
  obtain ⟨hnF, htF⟩ := hopq y (z + 1) x (by omega) (by omega) (by omega)
  have hx0 : (x == 0) = false := by
    simp only [beq_eq_false_iff_ne, ne_eq]
    omega
  have hxm : (x == CHUNK_SIZE - 1) = false := by
    simp only [beq_eq_false_iff_ne, ne_eq]
    omega
  have hy0 : (y == 0) = false := by
    simp only [beq_eq_false_iff_ne, ne_eq]
    omega
  have hym : (y == CHUNK_SIZE - 1) = false := by
    simp only [beq_eq_false_iff_ne, ne_eq]
    omega
  have hz0 : (z == 0) = false := by
    simp only [beq_eq_false_iff_ne, ne_eq]
    omega
  have hzm : (z == CHUNK_SIZE - 1) = false := by
    simp only [beq_eq_false_iff_ne, ne_eq]
    omega
  funext face
  cases face <;>
    simp [Chunk.check_visible_faces, FACE_NONE, hx0, hxm, hy0, hym, hz0, hzm,
      hnL, hnR, hnB, hnT, hnK, hnF, ht0, htL, htR, htB, htT, htK, htF]

/-- C2 (amended): meshing a chunk whose every cell holds an opaque block emits
quads covering only chunk-boundary cells; every interior cell is fully
occluded and no quad covers it.  (The quad list itself is non-empty — boundary
faces are always visible; see the counterexample.) -/
theorem c2_boundary_amended (c : Chunk) (coords : V3i) (hl : Option (V3i × V3i))
    (hfull : ∀ y z x, y < CHUNK_SIZE → z < CHUNK_SIZE → x < CHUNK_SIZE →
      (c.blocks y z x).any (fun b => !b.block_type.is_transparent) = true) :
    ∀ q ∈ c.update_geometry_quads coords hl, ∀ x y z : Nat,
      x < CHUNK_SIZE → y < CHUNK_SIZE → z < CHUNK_SIZE →
      q.covers (chunkOffset coords) (x, z) →
      q.position.2.1 = (chunkOffset coords).2.1 + (y : Int) →
      x = 0 ∨ x = CHUNK_SIZE - 1 ∨ y = 0 ∨ y = CHUNK_SIZE - 1 ∨
        z = 0 ∨ z = CHUNK_SIZE - 1 := by
  intro q hq x y z hx hy hz hcov hqy
  simp only [Chunk.update_geometry_quads] at hq
  rw [List.mem_flatMap] at hq
  obtain ⟨y2, hy2r, hqm⟩ := hq
  rw [List.mem_range] at hy2r
  obtain ⟨hQ, -, -, -⟩ := layerGo_spec (c.cull_layer_map y2)
    (hl.bind fun pn => (Chunk.block_coords_to_local coords pn.1).map fun v => (v, pn.2))
    y2 (chunkOffset coords) (cull_layer_map_bounds c y2) (c.cull_layer_queue y2) []
  obtain ⟨hy0, hcov2, -⟩ := hQ q hqm
  have hyeq : y = y2 := by
    rw [hy0] at hqy
    omega
  subst hyeq
  obtain ⟨-, bf, hbf, -, -⟩ := hcov2 (x, z) hcov
  rw [cull_layer_map_eq_some_iff] at hbf
  obtain ⟨-, -, b, hblk, hvf, -⟩ := hbf
  by_contra hbnd
  push_neg at hbnd
  obtain ⟨h1, h2, h3, h4, h5, h6⟩ := hbnd
  exact hvf (interior_mask_none c hfull x y z (by omega) (by omega) (by omega)
    (by omega) (by omega) (by omega))

/-! ## Witnesses -/

theorem c3_save_load_roundtrip_witness :
    (0 < CHUNK_SIZE) ∧
    (Chunk.load (fun c _ => c) Chunk.empty (0, 0, 0)
        (oneStoneChunk.save (0, 0, 0) (fun _ => none))).1.blocks 0 0 0
      = oneStoneChunk.blocks 0 0 0 :=
  ⟨by decide,
    (c3_save_load_roundtrip (fun c _ => c) oneStoneChunk (0, 0, 0) (fun _ => none)
      0 0 0 (by decide) (by decide) (by decide)).2⟩

theorem c6_cull_faces_iff_witness :
    (0 < CHUNK_SIZE ∧
      oneStoneChunk.blocks 0 0 0 = some { block_type := BlockType.stone }) ∧
    oneStoneChunk.check_visible_faces 0 0 0 Face.left = true :=
  ⟨⟨by decide, rfl⟩,
    ((c6_cull_faces_iff oneStoneChunk 0 0 0 { block_type := BlockType.stone }
      (by decide) (by decide) (by decide) rfl).1.1).mpr (Or.inl rfl)⟩

theorem c7_load_decode_failure_witness :
    (badStore (chunkKey (0, 0, 0)) = some [MsgElem.malformed] ∧
      Chunk.decode [MsgElem.malformed] = .error ()) ∧
    Chunk.load (fun c _ => c) Chunk.empty (0, 0, 0) badStore
      = (Chunk.empty, .error ()) :=
  ⟨⟨rfl, rfl⟩,
    (c7_load_decode_failure (fun c _ => c) Chunk.empty (0, 0, 0) badStore
      [MsgElem.malformed] rfl).1 rfl⟩

theorem c8_fullness_iff_witness :
    fullStoneChunk.update_fullness.full = true :=
  (c8_fullness_iff fullStoneChunk).mpr (fun _ _ _ _ _ _ => rfl)

theorem c9_update_aim_remesh_witness :
    ((some ((0, 0, 0), (0, 1, 0)) : Option (V3n × V3i)).map Prod.fst ≠
      (some ((33, 0, 0), (0, 1, 0)) : Option (V3n × V3i)).map Prod.fst) ∧
    hlChunk (0, 0, 0) ∈
      (update_aim (some ((0, 0, 0), (0, 1, 0))) (some ((33, 0, 0), (0, 1, 0)))).2 :=
  ⟨by decide,
    ((c9_update_aim_remesh (some ((0, 0, 0), (0, 1, 0)))
      (some ((33, 0, 0), (0, 1, 0)))).1 (by decide)).1 ((0, 0, 0), (0, 1, 0)) rfl⟩

theorem c10_quads_disjoint_culled_witness :
    List.Pairwise (quadsDisjoint ((0, 0, 0) : V3i))
      (twoStoneChunk.meshLayer 0 (0, 0, 0) none) :=
  (c10_quads_disjoint_culled twoStoneChunk 0 (0, 0, 0) none).1

theorem c4_highlight_unmerged_witness :
    oneStoneChunk.cull_layer_map 0 (0, 0)
        = some (BlockType.stone, oneStoneChunk.check_visible_faces 0 0 0) ∧
    hlQuad (0, 0, 0) 0 0 0 (0, 1, 0)
        (BlockType.stone, oneStoneChunk.check_visible_faces 0 0 0)
      ∈ oneStoneChunk.meshLayer 0 (0, 0, 0) (some ((0, 0, 0), (0, 1, 0))) :=
  ⟨by decide,
    (c4_highlight_unmerged oneStoneChunk 0 0 0 (0, 1, 0) (0, 0, 0)
      (BlockType.stone, oneStoneChunk.check_visible_faces 0 0 0) (by decide)).1⟩

theorem c5_water_unmerged_witness :
    ({ Quad.new (0, 0, 0) 1 1 with
        visible_faces := twoWaterChunk.check_visible_faces 0 0 0
        block_type := some BlockType.water }
          ∈ twoWaterChunk.meshLayer 0 (0, 0, 0) none ∧
      ({ Quad.new (0, 0, 0) 1 1 with
        visible_faces := twoWaterChunk.check_visible_faces 0 0 0
        block_type := some BlockType.water } : Quad).block_type
          = some BlockType.water) ∧
    (({ Quad.new (0, 0, 0) 1 1 with
        visible_faces := twoWaterChunk.check_visible_faces 0 0 0
        block_type := some BlockType.water } : Quad).dx = 1 ∧
      ({ Quad.new (0, 0, 0) 1 1 with
        visible_faces := twoWaterChunk.check_visible_faces 0 0 0
        block_type := some BlockType.water } : Quad).dz = 1) :=
  ⟨⟨by decide, rfl⟩,
    c5_water_unmerged twoWaterChunk 0 (0, 0, 0) none _ (by decide) rfl⟩

theorem c1_coverage_amended_witness :
    twoStoneChunk.cull_layer_map 0 (0, 0)
        = some (BlockType.stone, twoStoneChunk.check_visible_faces 0 0 0) ∧
    ∃ q ∈ twoStoneChunk.meshLayer 0 (0, 0, 0) none,
      q.covers (0, 0, 0) (0, 0) ∧
      faceSub (twoStoneChunk.check_visible_faces 0 0 0) q.visible_faces :=
  ⟨by decide,
    (c1_coverage_amended twoStoneChunk 0 (0, 0, 0) none).1 (0, 0)
      (BlockType.stone, twoStoneChunk.check_visible_faces 0 0 0) (by decide)⟩

theorem c2_boundary_amended_witness :
    (∀ y z x, y < CHUNK_SIZE → z < CHUNK_SIZE → x < CHUNK_SIZE →
      (fullStoneChunk.blocks y z x).any (fun b => !b.block_type.is_transparent)
        = true) ∧
    (∀ q ∈ fullStoneChunk.update_geometry_quads (0, 0, 0) none, ∀ x y z : Nat,
      x < CHUNK_SIZE → y < CHUNK_SIZE → z < CHUNK_SIZE →
      q.covers (chunkOffset (0, 0, 0)) (x, z) →
      q.position.2.1 = (chunkOffset (0, 0, 0)).2.1 + (y : Int) →
      x = 0 ∨ x = CHUNK_SIZE - 1 ∨ y = 0 ∨ y = CHUNK_SIZE - 1 ∨
        z = 0 ∨ z = CHUNK_SIZE - 1) :=
  ⟨fun _ _ _ _ _ _ => rfl,
    c2_boundary_amended fullStoneChunk (0, 0, 0) none (fun _ _ _ _ _ _ => rfl)⟩
end Minecrab
